import Mathlib

/-!
Verification development for the discrete-factor module
(src/beliefs/factors/discrete_factor.py).

A numpy ndarray is modelled shallowly as a shape (list of extents) together
with a total function from coordinate lists to integer entries; only the
entries at coordinates enumerated by the shape are meaningful.  The numpy
primitives the source uses (reshape of a flat buffer, trailing-newaxis
slicing, moveaxis, broadcasting elementwise multiply, sum over a tuple of
axes, tuple indexing) are embedded directly from numpy's documented
semantics.  Entry values are integers: every claim is about factors with
integer weights, and numpy float arithmetic on small integers is exact.

The Python class DiscreteFactor becomes the structure Factor below, and each
method is a Lean function of the same data.  Python exceptions are modelled
as Option/Except results.  The one piece of genuinely underdetermined
behaviour in the source is the iteration order of the Python set difference
in add_new_variables_from_other_factor; that order is passed in explicitly
as a list, together with the predicate SetDiffEnum stating that the list is
some enumeration of the set difference, so claims quantify over every order
the interpreter could produce.
-/

abbrev Var := String

structure NDArray where
  shape : List Nat
  data : List Nat → Int

/-- Row-major (C-order) position of a coordinate list inside a buffer of the
given shape: the right-most coordinate varies fastest, matching numpy. -/
def ravel : List Nat → List Nat → Nat
  | _ :: srest, i :: irest => i * srest.prod + ravel srest irest
  | _, _ => 0

/-- All coordinate lists of a shape, enumerated in C order. -/
def crossCons (heads : List Nat) (tails : List (List Nat)) : List (List Nat) :=
  match heads with
  | [] => []
  | h :: hs => (tails.map (fun t => h :: t)) ++ crossCons hs tails

def allIdx : List Nat → List (List Nat)
  | [] => [[]]
  | n :: rest => crossCons (List.range n) (allIdx rest)

/-- np.array(flat).reshape(shape): succeeds exactly when the element count
equals the product of the extents (numpy raises ValueError otherwise). -/
def reshape (flat : List Int) (shape : List Nat) : Option NDArray :=
  if flat.length = shape.prod then
    some ⟨shape, fun idx => flat.getD (ravel shape idx) 0⟩
  else none

/-- The flat C-order contents of a buffer, as read back by np.array(...). -/
def flattenA (a : NDArray) : List Int := (allIdx a.shape).map a.data

/-- a[slice(None), ..., np.newaxis, ..., np.newaxis]: appends k trailing
extent-1 broadcast dimensions. -/
def appendOnes (k : Nat) (a : NDArray) : NDArray :=
  ⟨a.shape ++ List.replicate k 1, fun idx => a.data (idx.take a.shape.length)⟩

/-- Index of the first occurrence of an element in a list (Python
list.index); returns the length when the element is absent. -/
def firstIdx {α : Type} [DecidableEq α] : List α → α → Nat
  | [], _ => 0
  | x :: xs, v => if x = v then 0 else firstIdx xs v + 1

/-- np.moveaxis(a, list(range(a.ndim)), dst) for dst a permutation of the
axes: the old axis k becomes axis dst[k] of the result. -/
def moveaxisFull (dst : List Nat) (a : NDArray) : NDArray :=
  ⟨(List.range a.shape.length).map (fun j => a.shape.getD (firstIdx dst j) 0),
   fun idx => a.data (dst.map (fun j => idx.getD j 0))⟩

/-- numpy broadcasting of a single pair of extents. -/
def broadcastDim (x y : Nat) : Option Nat :=
  if x = 1 then some y else if y = 1 then some x else if x = y then some x else none

def broadcastShape : List Nat → List Nat → Option (List Nat)
  | [], [] => some []
  | x :: xs, y :: ys =>
    match broadcastDim x y, broadcastShape xs ys with
    | some d, some rest => some (d :: rest)
    | _, _ => none
  | _, _ => none

/-- Left-pad a shape with extent-1 dimensions up to rank n (numpy aligns
shapes of different rank on the right). -/
def padTo (n : Nat) (s : List Nat) : List Nat := List.replicate (n - s.length) 1 ++ s

/-- Coordinates of the operand cell feeding a broadcast output cell: drop
the padded leading coordinates and clamp extent-1 dimensions to 0. -/
def bcastIdx (orig : List Nat) (idx : List Nat) : List Nat :=
  (orig.zip (idx.drop (idx.length - orig.length))).map (fun p => if p.1 = 1 then 0 else p.2)

/-- Elementwise product with numpy broadcasting; none models the ValueError
raised on incompatible shapes. -/
def bmul (a b : NDArray) : Option NDArray :=
  match broadcastShape (padTo b.shape.length a.shape) (padTo a.shape.length b.shape) with
  | none => none
  | some s =>
    some ⟨s, fun idx => a.data (bcastIdx a.shape idx) * b.data (bcastIdx b.shape idx)⟩

/-- Select the entries of a list at the positions where the mask is true. -/
def maskSelect {α : Type} : List Bool → List α → List α
  | true :: m, x :: xs => x :: maskSelect m xs
  | false :: m, _ :: xs => maskSelect m xs
  | _, _ => []

/-- Rebuild a full coordinate list from kept coordinates and removed-axis
coordinates, guided by a mask marking the removed axes. -/
def mergeCoords : List Bool → List Nat → List Nat → List Nat
  | [], _, _ => []
  | true :: m, kept, rem => rem.headD 0 :: mergeCoords m kept rem.tail
  | false :: m, kept, rem => kept.headD 0 :: mergeCoords m kept.tail rem

/-- The joint sum over a set of axes: each output cell is the sum of the
input cells ranging over every assignment of the removed axes.  This is the
meaning of np.sum(a, axis=tuple(axes)) for valid distinct axes. -/
def jointSum (axes : List Nat) (a : NDArray) : NDArray :=
  let mask : List Bool := (List.range a.shape.length).map (fun j => decide (j ∈ axes))
  ⟨maskSelect (mask.map Bool.not) a.shape,
   fun idx =>
     ((allIdx (maskSelect mask a.shape)).map
       (fun rem => a.data (mergeCoords mask idx rem))).sum⟩

/-- np.sum(a, axis=tuple(axes)): numpy raises ValueError on a repeated axis
and AxisError on an out-of-range axis; both are modelled as none. -/
def sumAxes (axes : List Nat) (a : NDArray) : Option NDArray :=
  if axes.Nodup ∧ (∀ k ∈ axes, k < a.shape.length) then some (jointSum axes a) else none

structure Factor where
  vars : List Var
  cardinality : List Nat
  values : Option NDArray
  state_names : Option (List (Var × List String))

/-- DiscreteFactor.__init__: stores the scope and cardinalities and, when a
flat value list is supplied, reshapes it into the cardinality-shaped buffer
(right-most variable fastest); none models the ValueError when the element
count does not match the product of the cardinalities. -/
def mkFactor (vars : List Var) (card : List Nat) (vals : Option (List Int))
    (sn : Option (List (Var × List String))) : Option Factor :=
  match vals with
  | none => some ⟨vars, card, none, sn⟩
  | some flat => (reshape flat card).map (fun nd => ⟨vars, card, some nd, sn⟩)

/-- DiscreteFactor.copy: re-runs __init__ on the same scope and cardinality,
passing the current buffer (np.array copies it) and a deep copy of the
state-name mapping. -/
def copyF (f : Factor) : Option Factor :=
  match f.values with
  | none => some ⟨f.vars, f.cardinality, none, f.state_names⟩
  | some nd =>
    match reshape (flattenA nd) f.cardinality with
    | none => none
    | some nd2 => some ⟨f.vars, f.cardinality, some nd2, f.state_names⟩

/-- DiscreteFactor.update_values: reshapes the new flat values into the
current cardinality-defined shape; none models the ValueError when the
element count disagrees. -/
def updateValues (f : Factor) (nv : List Int) : Option Factor :=
  (reshape nv f.cardinality).map (fun nd => ⟨f.vars, f.cardinality, some nd, f.state_names⟩)

/-- The list extra is one possible iteration order of the Python expression
set(A) - set(B): it is duplicate-free and contains exactly the members of A
that are not members of B. -/
def SetDiffEnum (extra A B : List Var) : Prop :=
  extra.Nodup ∧ (∀ v ∈ extra, v ∈ A ∧ ¬ v ∈ B) ∧ (∀ v ∈ A, ¬ v ∈ B → v ∈ extra)

instance (extra A B : List Var) : Decidable (SetDiffEnum extra A B) := by
  unfold SetDiffEnum; infer_instance

/-- DiscreteFactor.add_new_variables_from_other_factor, with the iteration
order of the set difference passed in as extra.  When extra is empty the
method returns immediately; otherwise it appends a trailing extent-1
dimension per new variable, extends the variable list, and appends the
cardinalities reported by the other factor (other.get_cardinality raises if
a variable is outside the other scope, modelled as none; an unpopulated
factor raises on the slice of None, also none). -/
def addNewVars (extra : List Var) (f other : Factor) : Option Factor :=
  if extra.isEmpty then some f
  else
    match f.values with
    | none => none
    | some nd =>
      if ∀ v ∈ extra, v ∈ other.vars then
        some ⟨f.vars ++ extra,
              f.cardinality ++
                extra.map (fun v => other.cardinality.getD (firstIdx other.vars v) 0),
              some (appendOnes extra.length nd),
              f.state_names⟩
      else none

/-- The tail of DiscreteFactor.product after both operands were extended:
destination_axes lists, for each left variable, its position in the right
scope; right.vars is permuted accordingly and np.moveaxis(right.values,
source_axes, destination_axes) is applied — note the source gives the
identity as source and the variable-matching permutation as destination, so
old axis k is sent to position destination_axes[k].  The guard models the
validation np.moveaxis and list.index perform (none for their exceptions);
the final buffers are multiplied with broadcasting. -/
def alignMultiply (left right : Factor) (lv rv : NDArray) : Option Factor :=
  let dst := left.vars.map (fun v => firstIdx right.vars v)
  if dst.Nodup ∧ dst.length = rv.shape.length ∧ (∀ k ∈ dst, k < rv.shape.length) then
    (bmul lv (moveaxisFull dst rv)).bind (fun res =>
      some ⟨left.vars, left.cardinality, some res, left.state_names⟩)
  else none

/-- DiscreteFactor.product for a factor operand: copy both operands, extend
each with the variables the other has (ordL enumerates set(other)-set(self),
ordR enumerates the set difference taken against the already-extended left
operand), then align and multiply.  The result keeps the extended left
operand's scope, cardinalities and state names. -/
def product (ordL ordR : List Var) (self other : Factor) : Option Factor :=
  (copyF self).bind (fun l0 =>
  (copyF other).bind (fun r0 =>
  (addNewVars ordL l0 r0).bind (fun left =>
  (addNewVars ordR r0 left).bind (fun right =>
  left.values.bind (fun lv =>
  right.values.bind (fun rv =>
    alignMultiply left right lv rv))))))

inductive MargErr where
  | notInScope (v : Var)
  | badAxes
  | noValues
deriving DecidableEq

/-- The scope-checking loop of DiscreteFactor.marginalize: walks the removal
list in order, raising ValueError at the first variable outside the scope,
and otherwise collects self.vars.index(var) for each entry. -/
def collectIdx (sv : List Var) : List Var → Except MargErr (List Nat)
  | [] => .ok []
  | v :: rest =>
    if v ∈ sv then
      match collectIdx sv rest with
      | .error e => .error e
      | .ok is => .ok (firstIdx sv v :: is)
    else .error (.notInScope v)

/-- DiscreteFactor.marginalize: deep-copies the factor (the input is never
mutated), validates the removal list, keeps the ascending positions outside
the removed set (sorted set difference of range(n)), restricts variables and
cardinalities to those positions, and sums the buffer over the removed axes.
badAxes models the numpy error when the axis tuple repeats an axis or leaves
the buffer's rank; noValues models the failure on an unpopulated factor. -/
def marginalize (f : Factor) (vs : List Var) : Except MargErr Factor :=
  match collectIdx f.vars vs with
  | .error e => .error e
  | .ok idxs =>
    let keepMask : List Bool :=
      (List.range f.vars.length).map (fun j => decide (¬ j ∈ idxs))
    match f.values with
    | none => .error .noValues
    | some nd =>
      match sumAxes idxs nd with
      | none => .error .badAxes
      | some s =>
        .ok ⟨maskSelect keepMask f.vars, maskSelect keepMask f.cardinality,
             some s, f.state_names⟩

inductive LookupErr where
  | scopeMismatch
  | unknownState (v s : String)
  | noLabels
  | noValues
  | outOfRange
deriving DecidableEq

/-- First binding of a key in an association list (Python dict lookup; the
hypotheses of the claims keep keys duplicate-free, where first = last). -/
def assocLookup {β : Type} : List (Var × β) → Var → Option β
  | [], _ => none
  | (k, b) :: rest, v => if k = v then some b else assocLookup rest v

/-- Python sorted() on a list of strings. -/
def sortStr (l : List String) : List String :=
  List.insertionSort (fun a b => a ≤ b) l

/-- The resolution loop of get_value_for_state_vector: for each scope
variable in order, reads its assigned label (the assert guarantees the key
is present) and resolves it with state_names[var].index(label); noLabels
models the failures when state_names is unusable, unknownState the
ValueError of list.index. -/
def resolveCoords (sn : List (Var × List String)) (assign : List (Var × String)) :
    List Var → Except LookupErr (List Nat)
  | [] => .ok []
  | v :: rest =>
    match assocLookup sn v with
    | none => .error .noLabels
    | some labs =>
      let s := (assocLookup assign v).getD ""
      if s ∈ labs then
        match resolveCoords sn assign rest with
        | .error e => .error e
        | .ok is => .ok (firstIdx labs s :: is)
      else .error (.unknownState v s)

/-- DiscreteFactor.get_value_for_state_vector: asserts that the sorted keys
of the assignment equal the sorted scope, resolves every label to its index
in state_names, and returns the buffer entry at that coordinate tuple (the
trailing guard models the IndexError of tuple indexing; noValues an
unpopulated factor). -/
def getValueForStateVector (f : Factor) (assign : List (Var × String)) :
    Except LookupErr Int :=
  if sortStr (assign.map Prod.fst) = sortStr f.vars then
    match f.state_names with
    | none => .error .noLabels
    | some sn =>
      match resolveCoords sn assign f.vars with
      | .error e => .error e
      | .ok coords =>
        match f.values with
        | none => .error .noValues
        | some nd =>
          if coords.length = nd.shape.length ∧ (∀ p ∈ coords.zip nd.shape, p.1 < p.2) then
            .ok (nd.data coords)
          else .error .outOfRange
  else .error .scopeMismatch

def Factor.valAt (idx : List Nat) (f : Factor) : Option Int :=
  f.values.map (fun nd => nd.data idx)

def Factor.valShape (f : Factor) : Option (List Nat) :=
  f.values.map NDArray.shape

/-- Pointwise comparison of two buffers: same shape and the same entry at
every coordinate enumerated by that shape. -/
def NDArray.equiv (a b : NDArray) : Prop :=
  a.shape = b.shape ∧ ∀ idx ∈ allIdx a.shape, a.data idx = b.data idx

instance (a b : NDArray) : Decidable (NDArray.equiv a b) := by
  unfold NDArray.equiv; infer_instance

/-!
Object-store model for the aliasing claims.  DiscreteFactor objects hold a
reference to a numpy buffer (_values) and to a state-name dict; mutation
(update_values, assigning to the dict) acts on the referenced cell.  A Heap
is the store of buffers and label dicts, and a FactorObj holds indices into
it.  copy() runs __init__ on the same scope and cardinality: np.array
allocates a fresh buffer from the old contents and copy.deepcopy allocates a
fresh label dict, so both references of the copy point at new cells.
-/

structure Heap where
  bufs : List (Option NDArray)
  labs : List (Option (List (Var × List String)))

structure FactorObj where
  vars : List Var
  cardinality : List Nat
  vref : Nat
  lref : Nat

def bufAt (h : Heap) (r : Nat) : Option NDArray := h.bufs.getD r none

def labAt (h : Heap) (r : Nat) : Option (List (Var × List String)) := h.labs.getD r none

/-- DiscreteFactor.copy in the object store: allocates a fresh buffer cell
holding np.array(values).reshape(cardinality) (none stays none) and a fresh
label cell holding the deep copy; none models the ValueError when the buffer
contents cannot be reshaped to the cardinality. -/
def copyObj (h : Heap) (f : FactorObj) : Option (Heap × FactorObj) :=
  match bufAt h f.vref with
  | none =>
    some (⟨h.bufs ++ [none], h.labs ++ [labAt h f.lref]⟩,
          ⟨f.vars, f.cardinality, h.bufs.length, h.labs.length⟩)
  | some nd =>
    match reshape (flattenA nd) f.cardinality with
    | none => none
    | some nd2 =>
      some (⟨h.bufs ++ [some nd2], h.labs ++ [labAt h f.lref]⟩,
            ⟨f.vars, f.cardinality, h.bufs.length, h.labs.length⟩)

/-- DiscreteFactor.update_values in the object store: writes the reshaped
new values into the factor's buffer cell. -/
def updateValuesObj (h : Heap) (f : FactorObj) (nv : List Int) : Option Heap :=
  (reshape nv f.cardinality).map (fun nd => ⟨h.bufs.set f.vref (some nd), h.labs⟩)

/-- Mutation of a factor's state-name mapping (reassignment or in-place
edits of the dict cell it references). -/
def setLabelsObj (h : Heap) (f : FactorObj) (sn : Option (List (Var × List String))) : Heap :=
  ⟨h.bufs, h.labs.set f.lref sn⟩

/-- The per-variable label list registered for v carries exactly c labels. -/
def labelsLenOk (sn : List (Var × List String)) (v : Var) (c : Nat) : Prop :=
  (assocLookup sn v).map List.length = some c

/-- The label assigned to v is registered for v in the state-name map. -/
def labelFound (sn : List (Var × List String)) (assign : List (Var × String)) (v : Var) : Prop :=
  ((assocLookup assign v).getD "") ∈ (assocLookup sn v).getD []

instance (sn : List (Var × List String)) (v : Var) (c : Nat) :
    Decidable (labelsLenOk sn v c) := by
  unfold labelsLenOk; infer_instance

instance (sn : List (Var × List String)) (assign : List (Var × String)) (v : Var) :
    Decidable (labelFound sn assign v) := by
  unfold labelFound; infer_instance

/-!
Concrete factors used by the witnesses and counterexamples.  specF and specC
are the factors of the spec's concrete scenarios; the c1/c2/c8/c9 pairs are
inputs on which the defect in DiscreteFactor.product surfaces.
-/

def specFnd : NDArray := ⟨[2, 2], fun idx => [1, 2, 3, 4].getD (ravel [2, 2] idx) 0⟩

def specF : Factor :=
  ⟨["A", "B"], [2, 2], some specFnd,
   some [("A", ["a0", "a1"]), ("B", ["b0", "b1"])]⟩

def specC : Factor :=
  ⟨["C"], [2], some ⟨[2], fun idx => [10, 20].getD (ravel [2] idx) 0⟩, none⟩

def c1A : Factor :=
  ⟨["A", "B", "C"], [2, 2, 2],
   some ⟨[2, 2, 2], fun idx => [1, 2, 3, 4, 5, 6, 7, 8].getD (ravel [2, 2, 2] idx) 0⟩, none⟩

def c1B : Factor :=
  ⟨["C", "A", "B"], [2, 2, 2],
   some ⟨[2, 2, 2], fun idx => [10, 20, 30, 40, 50, 60, 70, 80].getD (ravel [2, 2, 2] idx) 0⟩,
   none⟩

def c2A : Factor :=
  ⟨["A", "B"], [2, 3], some ⟨[2, 3], fun idx => [1, 2, 3, 4, 5, 6].getD (ravel [2, 3] idx) 0⟩,
   none⟩

def c2B : Factor :=
  ⟨["B", "C"], [3, 2], some ⟨[3, 2], fun idx => [1, 2, 3, 4, 5, 6].getD (ravel [3, 2] idx) 0⟩,
   none⟩

def c8A : Factor :=
  ⟨["A", "B"], [2, 3], some ⟨[2, 3], fun idx => [1, 2, 3, 4, 5, 6].getD (ravel [2, 3] idx) 0⟩,
   none⟩

def c8B : Factor :=
  ⟨["B", "C"], [3, 4],
   some ⟨[3, 4], fun idx => [1, 2, 3, 4, 5, 6, 7, 8, 9, 10, 11, 12].getD (ravel [3, 4] idx) 0⟩,
   none⟩

def c9self : Factor :=
  ⟨["X"], [2], some ⟨[2], fun idx => [1, 2].getD (ravel [2] idx) 0⟩, none⟩

def c9other : Factor := ⟨["X", "A", "B"], [2, 2, 2], none, none⟩

def heap0 : Heap :=
  ⟨[some ⟨[2], fun idx => [5, 6].getD (ravel [2] idx) 0⟩], [some [("A", ["x", "y"])]]⟩

def fobj0 : FactorObj := ⟨["A"], [2], 0, 0⟩

def clonePair : Heap × FactorObj := (copyObj heap0 fobj0).getD ⟨⟨[], []⟩, ⟨[], [], 0, 0⟩⟩

def updHeap : Heap := (updateValuesObj clonePair.1 clonePair.2 [9, 9]).getD ⟨[], []⟩

/-! General lemmas about the list-level helpers. -/

theorem firstIdx_getD {α : Type} [DecidableEq α] (l : List α) (v : α) (d : α)
    (hv : v ∈ l) : l.getD (firstIdx l v) d = v := by
  induction l with
  | nil => cases hv
  | cons x xs ih =>
    by_cases hx : x = v
    · simp [firstIdx, hx]
    · rcases List.mem_cons.mp hv with h | h
      · exact absurd h.symm hx
      · show (x :: xs).getD (if x = v then 0 else firstIdx xs v + 1) d = v
        rw [if_neg hx, List.getD_cons_succ, ih h]

theorem firstIdx_lt {α : Type} [DecidableEq α] (l : List α) (v : α)
    (hv : v ∈ l) : firstIdx l v < l.length := by
  induction l with
  | nil => cases hv
  | cons x xs ih =>
    by_cases hx : x = v
    · simp [firstIdx, hx]
    · rcases List.mem_cons.mp hv with h | h
      · exact absurd h.symm hx
      · show (if x = v then 0 else firstIdx xs v + 1) < xs.length + 1
        rw [if_neg hx]
        exact Nat.succ_lt_succ (ih h)

theorem firstIdx_inj {α : Type} [DecidableEq α] [Inhabited α] (l : List α) (u v : α)
    (hu : u ∈ l) (hv : v ∈ l) (h : firstIdx l u = firstIdx l v) : u = v := by
  have h1 := firstIdx_getD l u default hu
  have h2 := firstIdx_getD l v default hv
  rw [← h1, ← h2, h]

theorem firstIdx_getD_nodup {α : Type} [DecidableEq α] (l : List α) (d : α)
    (hnd : l.Nodup) (j : Nat) (hj : j < l.length) : firstIdx l (l.getD j d) = j := by
  induction l generalizing j with
  | nil => cases hj
  | cons x xs ih =>
    rcases List.nodup_cons.mp hnd with ⟨hx, hxs⟩
    cases j with
    | zero => simp [firstIdx]
    | succ j =>
      have hj' : j < xs.length := Nat.lt_of_succ_lt_succ hj
      have hmem : xs.getD j d ∈ xs := by
        rw [List.getD_eq_getElem xs d hj']
        exact List.getElem_mem hj'
      have hne : ¬ x = xs.getD j d := fun he => hx (he ▸ hmem)
      rw [List.getD_cons_succ]
      show (if x = xs.getD j d then 0 else firstIdx xs (xs.getD j d) + 1) = j + 1
      rw [if_neg hne, ih hxs j hj']

theorem maskSelect_true {α : Type} (l : List α) :
    maskSelect (List.replicate l.length true) l = l := by
  induction l with
  | nil => rfl
  | cons x xs ih => simp [List.replicate, maskSelect, ih]

theorem maskSelect_false {α : Type} (n : Nat) (l : List α) :
    maskSelect (List.replicate n false) l = [] := by
  induction n generalizing l with
  | zero => cases l <;> rfl
  | succ n ih => cases l with
    | nil => rfl
    | cons x xs => simp [List.replicate, maskSelect, ih]

theorem mergeCoords_false (idx rem : List Nat) :
    mergeCoords (List.replicate idx.length false) idx rem = idx := by
  induction idx with
  | nil => rfl
  | cons x xs ih => simp [List.replicate, mergeCoords, ih]

theorem maskSelect_map {α : Type} (l : List α) (q : α → Bool) :
    maskSelect (l.map q) l = l.filter q := by
  induction l with
  | nil => rfl
  | cons x xs ih => cases hq : q x <;> simp [maskSelect, List.filter_cons, hq, ih]

theorem maskSelect_map_zip {α β : Type} (vs : List α) (cs : List β) (q : α → Bool)
    (hl : vs.length = cs.length) :
    maskSelect (vs.map q) cs = ((vs.zip cs).filter (fun p => q p.1)).map Prod.snd := by
  induction vs generalizing cs with
  | nil => cases cs with
    | nil => rfl
    | cons c cs => cases hl
  | cons v vs ih =>
    cases cs with
    | nil => cases hl
    | cons c cs =>
      have hl' : vs.length = cs.length := Nat.succ_injective hl
      cases hq : q v <;> simp [maskSelect, List.zip_cons_cons, List.filter_cons, hq, ih cs hl']

theorem mem_crossCons (hs : List Nat) (tails : List (List Nat)) (t : List Nat) :
    t ∈ crossCons hs tails ↔ ∃ h ∈ hs, ∃ u ∈ tails, t = h :: u := by
  induction hs with
  | nil => simp [crossCons]
  | cons x xs ih =>
    simp only [crossCons, List.mem_append, List.mem_map, ih, List.mem_cons]
    constructor
    · rintro (⟨u, hu, rfl⟩ | ⟨h, hh, u, hu, rfl⟩)
      · exact ⟨x, Or.inl rfl, u, hu, rfl⟩
      · exact ⟨h, Or.inr hh, u, hu, rfl⟩
    · rintro ⟨h, hh | hh, u, hu, rfl⟩
      · exact Or.inl ⟨u, hu, hh ▸ rfl⟩
      · exact Or.inr ⟨h, hh, u, hu, rfl⟩

theorem allIdx_mem_length (s : List Nat) (idx : List Nat) (h : idx ∈ allIdx s) :
    idx.length = s.length := by
  induction s generalizing idx with
  | nil => simp [allIdx] at h; simp [h]
  | cons n rest ih =>
    rcases (mem_crossCons _ _ _).mp h with ⟨i, _, u, hu, rfl⟩
    simp [ih u hu]

theorem getD_set_ne {α : Type} (l : List α) (i j : Nat) (a d : α) (h : i ≠ j) :
    (l.set i a).getD j d = l.getD j d := by
  simp [List.getD, List.getElem?_set_ne h]

theorem getD_append_left {α : Type} (l l2 : List α) (n : Nat) (d : α) (h : n < l.length) :
    (l ++ l2).getD n d = l.getD n d :=
  List.getD_append l l2 d n h

/-! Lemmas about the scope-checking loop of marginalize. -/

theorem collectIdx_ok (sv vs : List Var) (h : ∀ v ∈ vs, v ∈ sv) :
    collectIdx sv vs = .ok (vs.map (firstIdx sv)) := by
  induction vs with
  | nil => rfl
  | cons v rest ih =>
    have hv : v ∈ sv := h v (List.mem_cons_self v rest)
    have hrest : ∀ u ∈ rest, u ∈ sv := fun u hu => h u (List.mem_cons_of_mem v hu)
    simp only [collectIdx]
    rw [if_pos hv, ih hrest]
    rfl

theorem collectIdx_err_mem (sv vs : List Var) (u : Var)
    (h : collectIdx sv vs = .error (.notInScope u)) : u ∈ vs ∧ ¬ u ∈ sv := by
  induction vs with
  | nil => cases h
  | cons v rest ih =>
    simp only [collectIdx] at h
    by_cases hv : v ∈ sv
    · rw [if_pos hv] at h
      cases hr : collectIdx sv rest with
      | error e => rw [hr] at h
                   cases h
                   rcases ih hr with ⟨h1, h2⟩
                   exact ⟨List.mem_cons_of_mem v h1, h2⟩
      | ok is => rw [hr] at h; cases h
    · rw [if_neg hv] at h
      cases h
      exact ⟨List.mem_cons_self _ _, by assumption⟩

theorem collectIdx_err_of_mem (sv vs : List Var) (u : Var) (hu : u ∈ vs) (hns : ¬ u ∈ sv) :
    ∃ w, collectIdx sv vs = .error (.notInScope w) := by
  induction vs with
  | nil => cases hu
  | cons v rest ih =>
    simp only [collectIdx]
    by_cases hv : v ∈ sv
    · rw [if_pos hv]
      have hu' : u ∈ rest := by
        rcases List.mem_cons.mp hu with h | h
        · exact absurd (h ▸ hv) hns
        · exact h
      rcases ih hu' with ⟨w, hw⟩
      rw [hw]
      exact ⟨w, rfl⟩
    · rw [if_neg hv]
      exact ⟨v, rfl⟩

theorem collectIdx_err_shape (sv vs : List Var) (e : MargErr)
    (h : collectIdx sv vs = .error e) : ∃ v, e = .notInScope v := by
  induction vs with
  | nil => cases h
  | cons v rest ih =>
    simp only [collectIdx] at h
    by_cases hv : v ∈ sv
    · rw [if_pos hv] at h
      cases hr : collectIdx sv rest with
      | error e2 => rw [hr] at h; cases h; exact ih hr
      | ok is => rw [hr] at h; cases h
    · rw [if_neg hv] at h
      cases h
      exact ⟨v, rfl⟩

theorem marginalize_ok_build (f : Factor) (vs : List Var) (idxs : List Nat) (nd s : NDArray)
    (hc : collectIdx f.vars vs = .ok idxs) (hv : f.values = some nd)
    (hs : sumAxes idxs nd = some s) :
    marginalize f vs =
      .ok ⟨maskSelect ((List.range f.vars.length).map (fun j => decide (¬ j ∈ idxs))) f.vars,
           maskSelect ((List.range f.vars.length).map (fun j => decide (¬ j ∈ idxs)))
             f.cardinality,
           some s, f.state_names⟩ := by
  unfold marginalize
  simp only [hc, hv, hs]

theorem marginalize_err_notInScope (f : Factor) (vs : List Var) (v : Var) :
    marginalize f vs = .error (.notInScope v) ↔
      collectIdx f.vars vs = .error (.notInScope v) := by
  constructor
  · intro hm
    unfold marginalize at hm
    cases hcc : collectIdx f.vars vs with
    | error e =>
      simp only [hcc] at hm
      cases hm
      rfl
    | ok idxs =>
      simp only [hcc] at hm
      cases hfv : f.values with
      | none => simp only [hfv] at hm; cases hm
      | some nd =>
        simp only [hfv] at hm
        cases hsa : sumAxes idxs nd with
        | none => simp only [hsa] at hm; cases hm
        | some s => simp only [hsa] at hm; cases hm
  · intro hm
    unfold marginalize
    simp only [hm]

/-! Field-tracking lemmas for the product pipeline. -/

theorem copyF_fields (f g : Factor) (h : copyF f = some g) :
    g.vars = f.vars ∧ g.cardinality = f.cardinality ∧ g.state_names = f.state_names := by
  unfold copyF at h
  cases hv : f.values with
  | none =>
    simp only [hv, Option.some.injEq] at h
    subst h
    exact ⟨rfl, rfl, rfl⟩
  | some nd =>
    simp only [hv] at h
    cases hr : reshape (flattenA nd) f.cardinality with
    | none => simp only [hr] at h; cases h
    | some nd2 =>
      simp only [hr, Option.some.injEq] at h
      subst h
      exact ⟨rfl, rfl, rfl⟩

theorem addNewVars_fields (extra : List Var) (f o g : Factor)
    (h : addNewVars extra f o = some g) :
    g.vars = f.vars ++ extra ∧ g.state_names = f.state_names := by
  unfold addNewVars at h
  by_cases he : extra.isEmpty
  · rw [if_pos he] at h
    simp only [Option.some.injEq] at h
    subst h
    rw [List.isEmpty_iff.mp he]
    exact ⟨by simp, rfl⟩
  · rw [if_neg he] at h
    cases hv : f.values with
    | none => simp only [hv] at h; cases h
    | some nd =>
      simp only [hv] at h
      by_cases hg : ∀ v ∈ extra, v ∈ o.vars
      · rw [if_pos hg] at h
        simp only [Option.some.injEq] at h
        subst h
        exact ⟨rfl, rfl⟩
      · rw [if_neg hg] at h; cases h

theorem alignMultiply_fields (left right : Factor) (lv rv : NDArray) (P : Factor)
    (h : alignMultiply left right lv rv = some P) :
    P.vars = left.vars ∧ P.cardinality = left.cardinality ∧
      P.state_names = left.state_names := by
  simp only [alignMultiply] at h
  split at h
  · rw [Option.bind_eq_some] at h
    rcases h with ⟨res, _, hres⟩
    simp only [Option.some.injEq] at hres
    subst hres
    exact ⟨rfl, rfl, rfl⟩
  · cases h

theorem product_vars (ordL ordR : List Var) (s o P : Factor)
    (h : product ordL ordR s o = some P) : P.vars = s.vars ++ ordL := by
  unfold product at h
  rw [Option.bind_eq_some] at h
  rcases h with ⟨l0, hl0, h⟩
  rw [Option.bind_eq_some] at h
  rcases h with ⟨r0, _, h⟩
  rw [Option.bind_eq_some] at h
  rcases h with ⟨left, hleft, h⟩
  rw [Option.bind_eq_some] at h
  rcases h with ⟨right, _, h⟩
  rw [Option.bind_eq_some] at h
  rcases h with ⟨lv, _, h⟩
  rw [Option.bind_eq_some] at h
  rcases h with ⟨rv, _, h⟩
  rw [(alignMultiply_fields _ _ _ _ _ h).1, (addNewVars_fields _ _ _ _ hleft).1,
    (copyF_fields _ _ hl0).1]

/-! Lemmas about Python sorted() as used by the scope assertion. -/

theorem sortStr_eq_of_perm (l1 l2 : List String) (h : List.Perm l1 l2) :
    sortStr l1 = sortStr l2 := by
  have hs1 := List.sorted_insertionSort (fun a b => a ≤ b) l1
  have hs2 := List.sorted_insertionSort (fun a b => a ≤ b) l2
  exact List.eq_of_perm_of_sorted
    ((List.perm_insertionSort _ l1).trans (h.trans (List.perm_insertionSort _ l2).symm)) hs1 hs2

theorem perm_of_sortStr_eq (l1 l2 : List String) (h : sortStr l1 = sortStr l2) :
    List.Perm l1 l2 := by
  have p1 : List.Perm (sortStr l1) l1 := List.perm_insertionSort _ l1
  have p2 : List.Perm (sortStr l2) l2 := List.perm_insertionSort _ l2
  rw [h] at p1
  exact p1.symm.trans p2

/-! Lemmas about the label-resolution loop. -/

theorem resolveCoords_ok (sn : List (Var × List String)) (assign : List (Var × String))
    (vs : List Var) (h : ∀ v ∈ vs, (assocLookup sn v).isSome ∧ labelFound sn assign v) :
    resolveCoords sn assign vs =
      .ok (vs.map (fun v =>
        firstIdx ((assocLookup sn v).getD []) ((assocLookup assign v).getD ""))) := by
  induction vs with
  | nil => rfl
  | cons v rest ih =>
    rcases h v (List.mem_cons_self v rest) with ⟨hsome, hfound⟩
    cases hl : assocLookup sn v with
    | none => rw [hl] at hsome; cases hsome
    | some labs =>
      have hmem : ((assocLookup assign v).getD "") ∈ labs := by
        have hh := hfound
        unfold labelFound at hh
        rw [hl] at hh
        exact hh
      simp only [resolveCoords, hl]
      rw [if_pos hmem]
      simp only [ih (fun u hu => h u (List.mem_cons_of_mem v hu))]
      simp [hl]

theorem resolveCoords_err (sn : List (Var × List String)) (assign : List (Var × String))
    (vs : List Var) (hsome : ∀ v ∈ vs, (assocLookup sn v).isSome)
    (hbad : ∃ v ∈ vs, ¬ labelFound sn assign v) :
    ∃ v s, resolveCoords sn assign vs = .error (.unknownState v s) := by
  induction vs with
  | nil => rcases hbad with ⟨v, hv, _⟩; cases hv
  | cons v rest ih =>
    have hs := hsome v (List.mem_cons_self v rest)
    cases hl : assocLookup sn v with
    | none => rw [hl] at hs; cases hs
    | some labs =>
      by_cases hf : labelFound sn assign v
      · have hmem : ((assocLookup assign v).getD "") ∈ labs := by
          have hh := hf
          unfold labelFound at hh
          rw [hl] at hh
          exact hh
        have hbad2 : ∃ u ∈ rest, ¬ labelFound sn assign u := by
          rcases hbad with ⟨u, hu, hnf⟩
          rcases List.mem_cons.mp hu with hcase | hcase
          · exact absurd (hcase ▸ hf) hnf
          · exact ⟨u, hcase, hnf⟩
        rcases ih (fun u hu => hsome u (List.mem_cons_of_mem v hu)) hbad2 with ⟨w, t, hwt⟩
        refine ⟨w, t, ?_⟩
        simp only [resolveCoords, hl]
        rw [if_pos hmem]
        simp only [hwt]
      · have hnmem : ¬ ((assocLookup assign v).getD "") ∈ labs := by
          intro hc
          apply hf
          unfold labelFound
          rw [hl]
          exact hc
        refine ⟨v, (assocLookup assign v).getD "", ?_⟩
        simp only [resolveCoords, hl]
        rw [if_neg hnmem]

/-! Lemmas connecting index masks with variable-level filtering. -/

theorem keepMask_eq (vars R : List Var) (hnd : vars.Nodup) (hsub : ∀ v ∈ R, v ∈ vars) :
    (List.range vars.length).map (fun j => decide (¬ j ∈ R.map (firstIdx vars))) =
      vars.map (fun v => decide (¬ v ∈ R)) := by
  apply List.ext_getElem
  · simp
  · intro i h1 h2
    have hib : i < vars.length := by simpa using h2
    simp only [List.getElem_map, List.getElem_range]
    apply decide_eq_decide.mpr
    apply not_congr
    constructor
    · intro hi
      rcases List.mem_map.mp hi with ⟨u, hu, he⟩
      have hgd : vars.getD (firstIdx vars u) "" = u := firstIdx_getD vars u "" (hsub u hu)
      have hv : vars[i] = u := by
        rw [← List.getD_eq_getElem vars "" hib, ← he]
        exact hgd
      rw [hv]
      exact hu
    · intro hv
      apply List.mem_map.mpr
      refine ⟨vars[i], hv, ?_⟩
      rw [← List.getD_eq_getElem vars "" hib]
      exact firstIdx_getD_nodup vars "" hnd i hib

theorem sumAxes_ok (axes : List Nat) (a : NDArray) (h1 : axes.Nodup)
    (h2 : ∀ k ∈ axes, k < a.shape.length) : sumAxes axes a = some (jointSum axes a) := by
  unfold sumAxes
  rw [if_pos ⟨h1, h2⟩]

theorem mask_nil_false (m : Nat) :
    (List.range m).map (fun j => decide (j ∈ ([] : List Nat))) = List.replicate m false := by
  apply List.ext_getElem
  · simp
  · intro i h1 h2
    simp

theorem mask_nil_true (m : Nat) :
    (List.range m).map (fun j => decide (¬ j ∈ ([] : List Nat))) = List.replicate m true := by
  apply List.ext_getElem
  · simp
  · intro i h1 h2
    simp

theorem jointSum_nil_equiv (nd : NDArray) : NDArray.equiv (jointSum [] nd) nd := by
  have hsh : (jointSum [] nd).shape = nd.shape := by
    show maskSelect ((((List.range nd.shape.length).map
        (fun j => decide (j ∈ ([] : List Nat))))).map Bool.not) nd.shape = nd.shape
    rw [mask_nil_false, List.map_replicate]
    exact maskSelect_true nd.shape
  constructor
  · exact hsh
  · intro idx hidx
    rw [hsh] at hidx
    have hlen : idx.length = nd.shape.length := allIdx_mem_length nd.shape idx hidx
    show ((allIdx (maskSelect ((List.range nd.shape.length).map
        (fun j => decide (j ∈ ([] : List Nat)))) nd.shape)).map
      (fun rem => nd.data (mergeCoords ((List.range nd.shape.length).map
        (fun j => decide (j ∈ ([] : List Nat)))) idx rem))).sum = nd.data idx
    rw [mask_nil_false, maskSelect_false]
    show (nd.data (mergeCoords (List.replicate nd.shape.length false) idx []) + 0) = nd.data idx
    rw [← hlen, mergeCoords_false, Int.add_zero]

theorem mem_zip_of_mem_left {α β : Type} (l1 : List α) (l2 : List β)
    (hl : l1.length = l2.length) (a : α) (ha : a ∈ l1) : ∃ b, (a, b) ∈ l1.zip l2 := by
  rcases List.mem_iff_getElem.mp ha with ⟨i, hi, rfl⟩
  have hi2 : i < l2.length := hl ▸ hi
  have hiz : i < (l1.zip l2).length := by
    rw [List.length_zip]
    exact Nat.lt_min.mpr ⟨hi, hi2⟩
  refine ⟨l2[i], List.mem_iff_getElem.mpr ⟨i, hiz, ?_⟩⟩
  rw [List.getElem_zip]

theorem labelsLenOk_isSome (sn : List (Var × List String)) (v : Var) (c : Nat)
    (h : labelsLenOk sn v c) : (assocLookup sn v).isSome := by
  unfold labelsLenOk at h
  cases hl : assocLookup sn v with
  | none => rw [hl] at h; cases h
  | some labs => rfl

/-- C1: the product value law fails on the code.  For the populated,
duplicate-free factors c1A (scope A,B,C) and c1B (scope C,A,B) — equal
variable sets, so both set differences are empty and no iteration-order
choice is involved — the code returns 60 at the joint assignment
(A=0,B=0,C=1), while the value demanded by the claim, A at that assignment
times B at that assignment, is 2 * 50 = 100: np.moveaxis is called with the
variable-matching permutation as destination instead of source, so the right
operand's buffer is permuted by the inverse of the intended permutation. -/
theorem c1_product_value_law_fails :
    Factor.valAt [0, 0, 1] c1A = some 2
    ∧ Factor.valAt [1, 0, 0] c1B = some 50
    ∧ (product [] [] c1A c1B).bind (Factor.valAt [0, 0, 1]) = some 60
    ∧ SetDiffEnum [] c1B.vars c1A.vars
    ∧ SetDiffEnum [] (c1A.vars ++ []) c1B.vars
    ∧ ((60 : Int) ≠ 2 * 50) := by
  refine ⟨rfl, rfl, rfl, by decide, by decide, by decide⟩

/-- C2: the shape invariant fails for a factor derived via Multiply.  For
c2A (scope A,B; cardinalities 2,3) and c2B (scope B,C; cardinalities 3,2)
the set differences are the singletons C and A (no order choice), the
product succeeds, and the result records cardinality [2,3,2] while its value
buffer has shape [2,3,3]: axis extent 3 does not equal cardinality 2 on the
last dimension, again a consequence of the swapped moveaxis arguments. -/
theorem c2_shape_invariant_fails :
    (product ["C"] ["A"] c2A c2B).map Factor.cardinality = some [2, 3, 2]
    ∧ (product ["C"] ["A"] c2A c2B).bind Factor.valShape = some [2, 3, 3]
    ∧ SetDiffEnum ["C"] c2B.vars c2A.vars
    ∧ SetDiffEnum ["A"] (c2A.vars ++ ["C"]) c2B.vars := by
  refine ⟨rfl, rfl, by decide, by decide⟩

/-- C9: the scopes alone do not determine the order in which the missing
variables are appended.  For the scopes X and X,A,B both A,B and B,A are
enumerations of the set difference that the Python set iteration could
produce, and they yield different output scopes, so the appended order is a
property of the interpreter's hash seed, not of the input scopes. -/
theorem c9_extension_order_not_determined :
    SetDiffEnum ["A", "B"] c9other.vars c9self.vars
    ∧ SetDiffEnum ["B", "A"] c9other.vars c9self.vars
    ∧ (addNewVars ["A", "B"] c9self c9other).map Factor.vars ≠
        (addNewVars ["B", "A"] c9self c9other).map Factor.vars := by
  refine ⟨by decide, by decide, by decide⟩

/-- C7: marginalize fails with the not-in-scope error exactly when some
entry of the removal list is outside the factor's scope; with duplicates or
an unpopulated buffer it can fail, but with a different error.  The input
factor is a value that marginalize only reads (the Python code mutates only
its deepcopy), so the input is unchanged on every path. -/
theorem c7_marginalize_unknown_variable_iff (F : Factor) (R : List Var) :
    (∃ v, marginalize F R = .error (.notInScope v)) ↔ ∃ v, v ∈ R ∧ ¬ v ∈ F.vars := by
  constructor
  · rintro ⟨v, hv⟩
    have hc := (marginalize_err_notInScope F R v).mp hv
    rcases collectIdx_err_mem F.vars R v hc with ⟨hm, hn⟩
    exact ⟨v, hm, hn⟩
  · rintro ⟨v, hv, hns⟩
    rcases collectIdx_err_of_mem F.vars R v hv hns with ⟨w, hw⟩
    exact ⟨w, (marginalize_err_notInScope F R w).mpr hw⟩

/-- C3 counterexample: the claim quantifies over every list of in-scope
variables, but marginalizing the spec's concrete factor by the list B,B —
every entry of which is in scope — fails (np.sum rejects the repeated axis
in the tuple) instead of returning a factor. -/
theorem c3_duplicate_removal_fails :
    marginalize specF ["B", "B"] = .error .badAxes
    ∧ (∀ v ∈ ["B", "B"], v ∈ specF.vars) := by
  exact ⟨rfl, by decide⟩

/-- C3 (amended to duplicate-free removal lists): marginalizing a populated,
well-formed factor by a duplicate-free list of in-scope variables succeeds;
the kept variables are the original scope with the removed set excluded in
original order, the cardinalities are those of the kept variables, and the
value buffer is the original buffer summed over exactly the removed
variables' dimensions. -/
theorem c3_marginalize_correct (F : Factor) (nd : NDArray) (R : List Var)
    (hv : F.values = some nd) (hnd : F.vars.Nodup) (hR : R.Nodup)
    (hsub : ∀ v ∈ R, v ∈ F.vars) (hlen : F.cardinality.length = F.vars.length)
    (hshape : nd.shape.length = F.vars.length) :
    ∃ P, marginalize F R = .ok P
      ∧ P.vars = F.vars.filter (fun v => decide (¬ v ∈ R))
      ∧ P.cardinality =
          ((F.vars.zip F.cardinality).filter (fun p => decide (¬ p.1 ∈ R))).map Prod.snd
      ∧ P.values = some (jointSum (R.map (firstIdx F.vars)) nd)
      ∧ P.state_names = F.state_names := by
  have hc := collectIdx_ok F.vars R hsub
  have hnodup : (R.map (firstIdx F.vars)).Nodup :=
    hR.map_on (fun x hx y hy hxy => firstIdx_inj F.vars x y (hsub x hx) (hsub y hy) hxy)
  have hbound : ∀ k ∈ R.map (firstIdx F.vars), k < nd.shape.length := by
    intro k hk
    rcases List.mem_map.mp hk with ⟨u, hu, he⟩
    rw [hshape, ← he]
    exact firstIdx_lt F.vars u (hsub u hu)
  have hsum := sumAxes_ok (R.map (firstIdx F.vars)) nd hnodup hbound
  have hb := marginalize_ok_build F R (R.map (firstIdx F.vars)) nd _ hc hv hsum
  refine ⟨_, hb, ?_, ?_, rfl, rfl⟩
  · show maskSelect ((List.range F.vars.length).map
      (fun j => decide (¬ j ∈ R.map (firstIdx F.vars)))) F.vars = _
    rw [keepMask_eq F.vars R hnd hsub, maskSelect_map]
  · show maskSelect ((List.range F.vars.length).map
      (fun j => decide (¬ j ∈ R.map (firstIdx F.vars)))) F.cardinality = _
    rw [keepMask_eq F.vars R hnd hsub, maskSelect_map_zip F.vars F.cardinality _ hlen.symm]

/-- C3 witness: the spec's concrete scenario, marginalizing the factor with
scope A,B, cardinalities 2,2 and flat values 1,2,3,4 by B, yields scope A,
cardinality 2 and values 3,7. -/
theorem c3_marginalize_witness :
    ∃ P, marginalize specF ["B"] = .ok P ∧ P.vars = ["A"] ∧ P.cardinality = [2]
      ∧ Factor.valAt [0] P = some 3 ∧ Factor.valAt [1] P = some 7 := by
  rcases c3_marginalize_correct specF specFnd ["B"] rfl (by decide) (by decide) (by decide)
    rfl rfl with ⟨P, hP, h1, h2, h3, _⟩
  refine ⟨P, hP, ?_, ?_, ?_, ?_⟩
  · rw [h1]; rfl
  · rw [h2]; rfl
  · unfold Factor.valAt
    rw [h3]
    rfl
  · unfold Factor.valAt
    rw [h3]
    rfl

/-- C10: marginalizing a populated factor by the empty list succeeds and is
the identity: same scope, same cardinalities, same state names, and a value
buffer equal to the original at every coordinate (np.sum over an empty axis
tuple reduces nothing).  The input factor itself is a value the function
only reads, so it is unchanged. -/
theorem c10_marginalize_nothing (F : Factor) (nd : NDArray)
    (hv : F.values = some nd) (hlen : F.cardinality.length = F.vars.length) :
    ∃ P, marginalize F [] = .ok P ∧ P.vars = F.vars ∧ P.cardinality = F.cardinality
      ∧ P.state_names = F.state_names
      ∧ ∃ s, P.values = some s ∧ NDArray.equiv s nd := by
  have hsum : sumAxes [] nd = some (jointSum [] nd) :=
    sumAxes_ok [] nd List.nodup_nil (fun k hk => absurd hk (List.not_mem_nil k))
  have hb := marginalize_ok_build F [] [] nd _ rfl hv hsum
  refine ⟨_, hb, ?_, ?_, rfl, jointSum [] nd, rfl, jointSum_nil_equiv nd⟩
  · show maskSelect ((List.range F.vars.length).map
      (fun j => decide (¬ j ∈ ([] : List Nat)))) F.vars = F.vars
    rw [mask_nil_true]
    exact maskSelect_true F.vars
  · show maskSelect ((List.range F.vars.length).map
      (fun j => decide (¬ j ∈ ([] : List Nat)))) F.cardinality = F.cardinality
    rw [mask_nil_true, ← hlen]
    exact maskSelect_true F.cardinality

/-- C10 witness: marginalizing the concrete factor with scope A,B and values
1,2,3,4 by the empty list returns an equal factor. -/
theorem c10_marginalize_nothing_witness :
    ∃ P, marginalize specF [] = .ok P ∧ P.vars = ["A", "B"] ∧ P.cardinality = [2, 2]
      ∧ ∃ s, P.values = some s ∧ NDArray.equiv s specFnd := by
  rcases c10_marginalize_nothing specF specFnd rfl rfl with ⟨P, hP, h1, h2, _, hs⟩
  exact ⟨P, hP, by rw [h1]; rfl, by rw [h2]; rfl, hs⟩

/-- C8 counterexample: Multiply does not always produce a factor over the
union scope — on the populated, duplicate-free operands c8A (scope A,B,
cardinalities 2,3) and c8B (scope B,C, cardinalities 3,4), whose set
differences are singletons (no iteration-order choice), the product raises
a broadcast error (the misdirected moveaxis leaves incompatible shapes), so
no result scope exists at all. -/
theorem c8_product_raises_on_valid_operands :
    product ["C"] ["A"] c8A c8B = none
    ∧ c8A.vars.Nodup ∧ c8B.vars.Nodup
    ∧ (c8A.values).isSome = true ∧ (c8B.values).isSome = true
    ∧ SetDiffEnum ["C"] c8B.vars c8A.vars
    ∧ SetDiffEnum ["A"] (c8A.vars ++ ["C"]) c8B.vars := by
  exact ⟨rfl, by decide, by decide, rfl, rfl, by decide, by decide⟩

/-- C8 (amended to the runs on which Multiply returns a factor): whenever
the product of two factors succeeds, for any enumeration of the first set
difference, the result's scope is exactly the set union of the operands'
variable identifiers and contains no duplicates. -/
theorem c8_scope_union_when_succeeds (s o : Factor) (ordL ordR : List Var) (P : Factor)
    (hA : s.vars.Nodup)
    (hOrdL : SetDiffEnum ordL o.vars s.vars)
    (hP : product ordL ordR s o = some P) :
    (∀ v, v ∈ P.vars ↔ (v ∈ s.vars ∨ v ∈ o.vars)) ∧ P.vars.Nodup := by
  have hvars := product_vars ordL ordR s o P hP
  constructor
  · intro v
    rw [hvars, List.mem_append]
    constructor
    · rintro (h | h)
      · exact Or.inl h
      · exact Or.inr (hOrdL.2.1 v h).1
    · rintro (h | h)
      · exact Or.inl h
      · by_cases hs : v ∈ s.vars
        · exact Or.inl hs
        · exact Or.inr (hOrdL.2.2 v h hs)
  · rw [hvars]
    exact hA.append hOrdL.1 (fun a ha hae => (hOrdL.2.1 a hae).2 ha)

/-- C8 witness: multiplying the spec's concrete factors F (scope A,B) and C
(scope C) succeeds, and the result's scope is the union A,B,C without
duplicates. -/
theorem c8_scope_union_witness :
    ∃ P, product ["C"] ["A", "B"] specF specC = some P
      ∧ (∀ v, v ∈ P.vars ↔ (v ∈ specF.vars ∨ v ∈ specC.vars)) ∧ P.vars.Nodup := by
  cases hE : product ["C"] ["A", "B"] specF specC with
  | none =>
    have hso : (product ["C"] ["A", "B"] specF specC).isSome = true := rfl
    rw [hE] at hso
    cases hso
  | some P =>
    have h := c8_scope_union_when_succeeds specF specC ["C"] ["A", "B"] P
      (by decide) (by decide) hE
    exact ⟨P, rfl, h.1, h.2⟩

/-- C4: cloning shares no mutable state with the original.  In the object
store, copy allocates fresh cells for both the value buffer (np.array copies
the data) and the state-name mapping (deep copy), so: the original's cells
are untouched by the copy; replacing the values of the clone never changes
the cell the original references, and conversely; and mutating either
factor's state-name mapping never affects the other's. -/
theorem c4_clone_independent (h : Heap) (f : FactorObj) (h2 : Heap) (c : FactorObj)
    (hv : f.vref < h.bufs.length) (hl : f.lref < h.labs.length)
    (hc : copyObj h f = some (h2, c)) :
    bufAt h2 f.vref = bufAt h f.vref
    ∧ labAt h2 f.lref = labAt h f.lref
    ∧ (∀ nv h3, updateValuesObj h2 c nv = some h3 → bufAt h3 f.vref = bufAt h f.vref)
    ∧ (∀ nv h3, updateValuesObj h2 f nv = some h3 → bufAt h3 c.vref = bufAt h2 c.vref)
    ∧ (∀ sn, labAt (setLabelsObj h2 c sn) f.lref = labAt h f.lref)
    ∧ (∀ sn, labAt (setLabelsObj h2 f sn) c.lref = labAt h2 c.lref) := by
  have hvne : h.bufs.length ≠ f.vref := (Nat.ne_of_lt hv).symm
  have hlne : h.labs.length ≠ f.lref := (Nat.ne_of_lt hl).symm
  have hsplit : ∃ x, h2 = ⟨h.bufs ++ [x], h.labs ++ [labAt h f.lref]⟩
      ∧ c = ⟨f.vars, f.cardinality, h.bufs.length, h.labs.length⟩ := by
    unfold copyObj at hc
    cases hb : bufAt h f.vref with
    | none =>
      simp only [hb, Option.some.injEq, Prod.mk.injEq] at hc
      exact ⟨none, hc.1.symm, hc.2.symm⟩
    | some nd =>
      simp only [hb] at hc
      cases hr : reshape (flattenA nd) f.cardinality with
      | none => simp only [hr] at hc; cases hc
      | some nd2 =>
        simp only [hr, Option.some.injEq, Prod.mk.injEq] at hc
        exact ⟨some nd2, hc.1.symm, hc.2.symm⟩
  rcases hsplit with ⟨x, hh2, hcc⟩
  subst hh2
  subst hcc
  have hbuf : bufAt ⟨h.bufs ++ [x], h.labs ++ [labAt h f.lref]⟩ f.vref = bufAt h f.vref := by
    unfold bufAt
    exact getD_append_left h.bufs [x] f.vref none hv
  have hlab : labAt ⟨h.bufs ++ [x], h.labs ++ [labAt h f.lref]⟩ f.lref = labAt h f.lref := by
    unfold labAt
    exact getD_append_left h.labs [labAt h f.lref] f.lref none hl
  refine ⟨hbuf, hlab, ?_, ?_, ?_, ?_⟩
  · intro nv h3 hup
    unfold updateValuesObj at hup
    rw [Option.map_eq_some'] at hup
    rcases hup with ⟨nd3, _, hh3⟩
    subst hh3
    unfold bufAt
    show ((h.bufs ++ [x]).set h.bufs.length (some nd3)).getD f.vref none = _
    rw [getD_set_ne _ _ _ _ _ hvne]
    exact hbuf
  · intro nv h3 hup
    unfold updateValuesObj at hup
    rw [Option.map_eq_some'] at hup
    rcases hup with ⟨nd3, _, hh3⟩
    subst hh3
    unfold bufAt
    show ((h.bufs ++ [x]).set f.vref (some nd3)).getD h.bufs.length none = _
    rw [getD_set_ne _ _ _ _ _ hvne.symm]
  · intro sn
    unfold setLabelsObj labAt
    show ((h.labs ++ [labAt h f.lref]).set h.labs.length sn).getD f.lref none = _
    rw [getD_set_ne _ _ _ _ _ hlne]
    exact hlab
  · intro sn
    unfold setLabelsObj labAt
    show ((h.labs ++ [labAt h f.lref]).set f.lref sn).getD h.labs.length none = _
    rw [getD_set_ne _ _ _ _ _ hlne.symm]
    rfl

/-- C4 witness: on a concrete one-factor store, replacing the values of the
clone leaves the original's buffer untouched, and clearing the clone's
state-name mapping leaves the original's mapping untouched. -/
theorem c4_clone_independent_witness :
    bufAt updHeap 0 = bufAt heap0 0
    ∧ labAt (setLabelsObj clonePair.1 clonePair.2 none) 0 = labAt heap0 0 := by
  have h := c4_clone_independent heap0 fobj0 clonePair.1 clonePair.2
    (by decide) (by decide) rfl
  exact ⟨h.2.2.1 [9, 9] updHeap rfl, h.2.2.2.2.1 none⟩

/-- C5: by-name lookup on a populated, well-formed, labelled factor fails
with the scope-mismatch error when the assignment's key set is not exactly
the variable scope; fails with an unknown-state error when the keys match
but some variable's given label is not registered for it; and otherwise
returns the buffer entry at the coordinate tuple obtained by resolving each
scope variable's label to its index in the state-name lists. -/
theorem c5_value_for_assignment (F : Factor) (nd : NDArray) (sn : List (Var × List String))
    (assign : List (Var × String))
    (hvals : F.values = some nd) (hsn : F.state_names = some sn)
    (hnd : F.vars.Nodup) (hkeys : (assign.map Prod.fst).Nodup)
    (hshape : nd.shape = F.cardinality) (hclen : F.cardinality.length = F.vars.length)
    (hlabs : ∀ p ∈ F.vars.zip F.cardinality, labelsLenOk sn p.1 p.2) :
    (¬ ((∀ v ∈ assign.map Prod.fst, v ∈ F.vars) ∧ (∀ v ∈ F.vars, v ∈ assign.map Prod.fst)) →
        getValueForStateVector F assign = .error .scopeMismatch)
    ∧ (((∀ v ∈ assign.map Prod.fst, v ∈ F.vars) ∧ (∀ v ∈ F.vars, v ∈ assign.map Prod.fst)) →
        (∃ v ∈ F.vars, ¬ labelFound sn assign v) →
        ∃ v s, getValueForStateVector F assign = .error (.unknownState v s))
    ∧ (((∀ v ∈ assign.map Prod.fst, v ∈ F.vars) ∧ (∀ v ∈ F.vars, v ∈ assign.map Prod.fst)) →
        (∀ v ∈ F.vars, labelFound sn assign v) →
        getValueForStateVector F assign =
          .ok (nd.data (F.vars.map (fun v =>
            firstIdx ((assocLookup sn v).getD []) ((assocLookup assign v).getD ""))))) := by
  have hsome : ∀ v ∈ F.vars, (assocLookup sn v).isSome := by
    intro v hv
    rcases mem_zip_of_mem_left F.vars F.cardinality hclen.symm v hv with ⟨c, hcmem⟩
    exact labelsLenOk_isSome sn v c (hlabs (v, c) hcmem)
  refine ⟨?_, ?_, ?_⟩
  · intro hns
    have hneq : sortStr (assign.map Prod.fst) ≠ sortStr F.vars := by
      intro he
      have hperm := perm_of_sortStr_eq _ _ he
      exact hns ⟨fun v hv => hperm.mem_iff.mp hv, fun v hv => hperm.mem_iff.mpr hv⟩
    unfold getValueForStateVector
    rw [if_neg hneq]
  · intro hscope hbad
    have hperm : List.Perm (assign.map Prod.fst) F.vars :=
      (List.perm_ext_iff_of_nodup hkeys hnd).mpr
        (fun a => ⟨fun ha => hscope.1 a ha, fun ha => hscope.2 a ha⟩)
    have hsort := sortStr_eq_of_perm _ _ hperm
    rcases resolveCoords_err sn assign F.vars hsome hbad with ⟨w, t, hwt⟩
    refine ⟨w, t, ?_⟩
    unfold getValueForStateVector
    rw [if_pos hsort]
    simp only [hsn, hwt]
  · intro hscope hall
    have hperm : List.Perm (assign.map Prod.fst) F.vars :=
      (List.perm_ext_iff_of_nodup hkeys hnd).mpr
        (fun a => ⟨fun ha => hscope.1 a ha, fun ha => hscope.2 a ha⟩)
    have hsort := sortStr_eq_of_perm _ _ hperm
    have hok := resolveCoords_ok sn assign F.vars (fun v hv => ⟨hsome v hv, hall v hv⟩)
    have hbounds : (F.vars.map (fun v =>
          firstIdx ((assocLookup sn v).getD []) ((assocLookup assign v).getD ""))).length =
            nd.shape.length
        ∧ ∀ p ∈ (F.vars.map (fun v =>
            firstIdx ((assocLookup sn v).getD []) ((assocLookup assign v).getD ""))).zip
              nd.shape, p.1 < p.2 := by
      constructor
      · rw [List.length_map, hshape, hclen]
      · intro p hp
        rcases List.mem_iff_getElem.mp hp with ⟨i, hi, he⟩
        have hil : i < F.vars.length := by
          rw [List.length_zip, List.length_map, hshape, hclen, Nat.min_self] at hi
          exact hi
        have hic : i < F.cardinality.length := by rw [hclen]; exact hil
        have his : i < nd.shape.length := by rw [hshape]; exact hic
        have him : i < (F.vars.map (fun v =>
            firstIdx ((assocLookup sn v).getD []) ((assocLookup assign v).getD ""))).length := by
          rw [List.length_map]; exact hil
        rw [← he, List.getElem_zip, List.getElem_map]
        show firstIdx ((assocLookup sn F.vars[i]).getD [])
            ((assocLookup assign F.vars[i]).getD "") < nd.shape[i]
        have hpz : (F.vars[i], F.cardinality[i]) ∈ F.vars.zip F.cardinality := by
          have hizz : i < (F.vars.zip F.cardinality).length := by
            rw [List.length_zip, ← hclen, Nat.min_self]
            exact hic
          refine List.mem_iff_getElem.mpr ⟨i, hizz, ?_⟩
          rw [List.getElem_zip]
        have hlen2 := hlabs (F.vars[i], F.cardinality[i]) hpz
        unfold labelsLenOk at hlen2
        cases hla : assocLookup sn F.vars[i] with
        | none => rw [hla] at hlen2; cases hlen2
        | some labs =>
          rw [hla] at hlen2
          simp only [Option.map_some', Option.some.injEq] at hlen2
          have hfound := hall F.vars[i] (List.getElem_mem hil)
          unfold labelFound at hfound
          rw [hla] at hfound
          have hlt : firstIdx labs ((assocLookup assign F.vars[i]).getD "") < labs.length :=
            firstIdx_lt labs _ hfound
          show firstIdx labs ((assocLookup assign F.vars[i]).getD "") < nd.shape[i]
          have hsi : nd.shape[i] = F.cardinality[i] := by
            simp only [hshape]
          rw [hsi, ← hlen2]
          exact hlt
    unfold getValueForStateVector
    rw [if_pos hsort]
    simp only [hsn, hok, hvals]
    rw [if_pos hbounds]

/-- C5 witness: on the spec's concrete factor (scope A,B, cardinalities 2,2,
flat values 1,2,3,4, labels a0,a1 and b0,b1) the assignment A=a1, B=b0
resolves to coordinates (1,0) and returns 3. -/
theorem c5_value_for_assignment_witness :
    getValueForStateVector specF [("A", "a1"), ("B", "b0")] = .ok 3 := by
  have h := c5_value_for_assignment specF specFnd
    [("A", ["a0", "a1"]), ("B", ["b0", "b1"])] [("A", "a1"), ("B", "b0")]
    rfl rfl (by decide) (by decide) rfl rfl (by decide)
  have hres := h.2.2 ⟨by decide, by decide⟩ (by decide)
  rw [hres]
  rfl

/-- C6: building a factor from a flat value list, and replacing a factor's
values, fail exactly when the element count differs from the product of the
declared cardinalities; when the counts agree, the values become a buffer
whose shape is the cardinality list, with the flat entries laid out so the
right-most variable varies fastest (C-order position ravel). -/
theorem c6_reshape_error_iff (vars : List Var) (card : List Nat) (flat : List Int)
    (sn : Option (List (Var × List String))) (f : Factor) :
    (mkFactor vars card (some flat) sn = none ↔ flat.length ≠ card.prod)
    ∧ (updateValues f flat = none ↔ flat.length ≠ f.cardinality.prod)
    ∧ (flat.length = card.prod →
        ∃ F2 nd, mkFactor vars card (some flat) sn = some F2 ∧ F2.vars = vars
          ∧ F2.cardinality = card ∧ F2.values = some nd ∧ nd.shape = card
          ∧ ∀ idx, nd.data idx = flat.getD (ravel card idx) 0)
    ∧ (flat.length = f.cardinality.prod →
        ∃ F2 nd, updateValues f flat = some F2 ∧ F2.vars = f.vars
          ∧ F2.cardinality = f.cardinality ∧ F2.state_names = f.state_names
          ∧ F2.values = some nd ∧ nd.shape = f.cardinality
          ∧ ∀ idx, nd.data idx = flat.getD (ravel f.cardinality idx) 0) := by
  refine ⟨?_, ?_, ?_, ?_⟩
  · by_cases hl : flat.length = card.prod <;>
      simp [mkFactor, reshape, hl]
  · by_cases hl : flat.length = f.cardinality.prod <;>
      simp [updateValues, reshape, hl]
  · intro hl
    refine ⟨⟨vars, card, some ⟨card, fun idx => flat.getD (ravel card idx) 0⟩, sn⟩,
      ⟨card, fun idx => flat.getD (ravel card idx) 0⟩, ?_, rfl, rfl, rfl, rfl, fun idx => rfl⟩
    simp only [mkFactor, reshape]
    rw [if_pos hl]
    rfl
  · intro hl
    refine ⟨⟨f.vars, f.cardinality,
        some ⟨f.cardinality, fun idx => flat.getD (ravel f.cardinality idx) 0⟩, f.state_names⟩,
      ⟨f.cardinality, fun idx => flat.getD (ravel f.cardinality idx) 0⟩,
      ?_, rfl, rfl, rfl, rfl, rfl, fun idx => rfl⟩
    unfold updateValues reshape
    rw [if_pos hl]
    rfl

/-- C6 witness: three values cannot populate one binary variable or the
2-by-2 factor (count mismatch fails), while matching counts succeed for
both construction and replacement. -/
theorem c6_reshape_error_iff_witness :
    mkFactor ["A"] [2] (some [1, 2, 3]) none = none
    ∧ (mkFactor ["A", "B"] [2, 2] (some [1, 2, 3, 4]) none).isSome = true
    ∧ updateValues specF [7, 7, 7] = none
    ∧ (updateValues specF [5, 6, 7, 8]).isSome = true := by
  have h1 := (c6_reshape_error_iff ["A"] [2] [1, 2, 3] none specF).1.mpr (by decide)
  have h2 := (c6_reshape_error_iff ["A", "B"] [2, 2] [1, 2, 3, 4] none specF).2.2.1 (by decide)
  have h3 := (c6_reshape_error_iff [] [] [7, 7, 7] none specF).2.1.mpr (by decide)
  have h4 := (c6_reshape_error_iff [] [] [5, 6, 7, 8] none specF).2.2.2 (by decide)
  rcases h2 with ⟨F2, nd2, hF2, _⟩
  rcases h4 with ⟨F4, nd4, hF4, _⟩
  exact ⟨h1, by rw [hF2]; rfl, h3, by rw [hF4]; rfl⟩
